import Mathlib

/-!
Shallow embedding of the matrixmult repository (src/src/main.rs) in Lean 4,
together with theorems settling the frozen claims about its specification.

The embedded program is an interactive console that lets a user type two
integer matrices into two text buffers and multiplies them, sequentially
via `multiply_matrices` or with worker threads via
`multiply_matrices_threaded`.  Terminal rendering (the `ui` and
`render_grid` functions) is pure display and is not modelled.

Modelling conventions:
  * Rust `i64` values are embedded as `Int` with the two-complement
    wraparound made explicit by `wrap64` at every arithmetic step
    (release-mode Rust semantics of `+` and `*` on `i64`).
  * Rust panics (index out of bounds, `Option::unwrap` and
    `Result::unwrap` on failure) are modelled by `Option`-valued
    functions where the claims depend on them; `none` means the process
    aborts with a panic and produces no result at all.
  * Channel nondeterminism: in `multiply_matrices_threaded` all worker
    sends complete before the first receive (the code joins every thread
    before draining), so the channel holds every non-empty report in some
    arbitrary arrival order.  The embedding fixes the thread-index order;
    the theorems below only draw conclusions that hold under every
    arrival order (report counts, and the T = 1 case with at most one
    report).
-/

namespace MatrixMult

/-- Embeds `type Matrix = Vec<Vec<i64>>` from main.rs. -/
abbrev Matrix := List (List Int)

/-- Two-complement wraparound of a mathematical integer into the signed
64-bit range, i.e. the value an `i64` register holds.  Every `i64`
addition and multiplication in the source is embedded as the integer
operation followed by `wrap64`. -/
def wrap64 (x : Int) : Int :=
  (x + 9223372036854775808) % 18446744073709551616 - 9223372036854775808

/-- Embeds the inner accumulation of `multiply_matrices` (and of the
worker loop in `multiply_matrices_threaded`): starting from `0`, for `k`
in `0..m2.len()` execute `acc += r1[k] * m2[k][j]` in `i64` arithmetic.
Out-of-range indices read the default `0`; the Rust code would panic
there, and the theorems below only apply it within bounds. -/
def mulCell (r1 : List Int) (m2 : Matrix) (j : Nat) : Int :=
  (List.range m2.length).foldl
    (fun acc k => wrap64 (acc + wrap64 (r1.getD k 0 * (m2.getD k []).getD j 0))) 0

/-- Embeds `fn multiply_matrices(m1: &Matrix, m2: &Matrix) -> Matrix`
from main.rs lines 287-302: a result of `m1.len()` rows and
`m2[0].len()` columns, filled by the triple loop over rows `i` of `m1`,
then columns `j` of `m2`, then the inner product index `k` over rows of
`m2`.  When `m2` is empty the Rust expression `m2[0]` panics; the
embedding reads `m2.headD []` and is only used with `m2` non-empty. -/
def multiply_matrices (m1 m2 : Matrix) : Matrix :=
  (List.range m1.length).map (fun i =>
    (List.range (m2.headD []).length).map (fun j => mulCell (m1.getD i []) m2 j))

/-- Embeds the row block a worker thread computes in
`multiply_matrices_threaded` (main.rs lines 315-337): `curr_result` is a
vector of `m1.len()` rows, initially all empty, and rows
`start_row..end_row` receive the products pushed in column order. -/
def workerRows (m1 m2 : Matrix) (start_row end_row : Nat) : Matrix :=
  (List.range m1.length).map (fun i =>
    if start_row ≤ i ∧ i < end_row then
      (List.range (m2.headD []).length).map (fun j => mulCell (m1.getD i []) m2 j)
    else [])

/-- Embeds one worker of `multiply_matrices_threaded`: worker `th` owns
rows `(th * m1.len()) / thread_count .. ((th + 1) * m1.len()) / thread_count`
and sends `(start_row, end_row, curr_result)` on the channel, or returns
early sending nothing when its range is empty. -/
def workerReport (m1 m2 : Matrix) (thread_count th : Nat) : Option (Nat × Nat × Matrix) :=
  let start_row := (th * m1.length) / thread_count
  let end_row := ((th + 1) * m1.length) / thread_count
  if start_row = end_row then none
  else some (start_row, end_row, workerRows m1 m2 start_row end_row)

/-- The list of reports the channel holds after every thread is joined,
in thread-index order (one admissible arrival order; see the header
comment on nondeterminism). -/
def producedReports (m1 m2 : Matrix) (thread_count : Nat) : List (Nat × Nat × Matrix) :=
  (List.range thread_count).filterMap (workerReport m1 m2 thread_count)

/-- Embeds the coordinator loop `for i in start..end { result[i].extend(&m[i]); }`
for one received report `(start, end, m)`. -/
def applyReport (result : Matrix) (rep : Nat × Nat × Matrix) : Matrix :=
  (List.range' rep.1 (rep.2.1 - rep.1)).foldl
    (fun res i => res.set i ((res.getD i []) ++ (rep.2.2.getD i []))) result

/-- Embeds `fn multiply_matrices_threaded` (main.rs lines 304-353).  The
coordinator joins all threads, then drains `rx.iter().take(thread_count / 2)`
reports into `result`, an `m1.len()`-row vector of empty rows.  The
original sender `tx` is never dropped, so if fewer than
`thread_count / 2` reports were ever sent the receiver blocks forever:
that deadlock is modelled as `none` (no result is ever produced). -/
def multiply_matrices_threaded (m1 m2 : Matrix) (thread_count : Nat) : Option Matrix :=
  let reports := producedReports m1 m2 thread_count
  if reports.length < thread_count / 2 then none
  else some ((reports.take (thread_count / 2)).foldl applyReport
    (List.replicate m1.length []))

/-- Embeds a single-character `str::split`, as used by
`split("\n")` and `split("_")` in `parse_matrices`: splitting an empty
string yields one empty piece, matching Rust. -/
def splitChar (sep : Char) : List Char → List (List Char)
  | [] => [[]]
  | c :: rest =>
    if c = sep then [] :: splitChar sep rest
    else
      match splitChar sep rest with
      | [] => [[c]]
      | r :: rs => (c :: r) :: rs

/-- Embeds `str::parse::<i64>()` as used in `parse_matrices`: an
optional single leading sign, then one or more ASCII digits, with the
value required to fit in the signed 64-bit range; anything else is a
parse error (`none`). -/
def parseI64 (cell : List Char) : Option Int :=
  let signDigits : Int × List Char :=
    match cell with
    | '+' :: rest => (1, rest)
    | '-' :: rest => (-1, rest)
    | _ => (1, cell)
  if signDigits.2 = [] then none
  else if signDigits.2.all Char.isDigit then
    let v : Int := signDigits.1 *
      ((signDigits.2.foldl (fun acc c => 10 * acc + (c.toNat - 48)) 0 : Nat) : Int)
    if -9223372036854775808 ≤ v ∧ v ≤ 9223372036854775807 then some v else none
  else none

/-- Embeds the per-buffer half of `parse_matrices` (main.rs lines
355-376): split the buffer on the row separator, split each row on the
cell separator, and parse every cell with `parse::<i64>().unwrap()`.
The `unwrap` panics on any failed cell and aborts the process; the
abort is modelled as `none`. -/
def parseBuffer (s : String) : Option Matrix :=
  (splitChar '\n' s.data).mapM (fun row => (splitChar '_' row).mapM parseI64)

/-- Embeds `struct App` from main.rs lines 45-52. -/
structure App where
  curr_matrix : Int
  matrix_text : List String
  curr_string : String
  answer : Option Matrix
  deriving DecidableEq

attribute [ext] App

/-- Embeds `App::default()`: both buffers empty, matrix 0 selected, no
answer. -/
def initApp : App := ⟨0, ["", ""], "", none⟩

/-- Embeds `App::next` (main.rs lines 66-69): clear the input trace and
advance the selected matrix cyclically (`%` on `i32` truncates toward
zero, hence `Int.tmod`). -/
def App.next (app : App) : App :=
  { app with curr_string := "", curr_matrix := (app.curr_matrix + 1).tmod 2 }

/-- Embeds `fn parse_matrices(app: &mut App)` (main.rs lines 355-379):
parse both buffers and store the sequential product into `app.answer`.
A failed cell parse panics via `unwrap` and aborts the process before
any field of `app` is written, modelled as `none`. -/
def parse_matrices (app : App) : Option App :=
  match parseBuffer (app.matrix_text.getD 0 ""),
        parseBuffer (app.matrix_text.getD 1 "") with
  | some m1, some m2 => some { app with answer := some (multiply_matrices m1 m2) }
  | _, _ => none

/-- Embeds `matrix_text[i].push(c)`.  `List.set` is a no-op out of
range where Rust indexing would panic; the reachable states proved
below always have `i < 2`. -/
def pushAt (l : List String) (i : Nat) (c : Char) : List String :=
  l.set i ((l.getD i "").push c)

/-- Embeds `String::pop` (discarding the returned character): remove
the last character, a no-op on the empty string. -/
def popStr (s : String) : String := ⟨s.data.dropLast⟩

/-- Embeds `matrix_text[i].pop()`. -/
def popAt (l : List String) (i : Nat) : List String :=
  l.set i (popStr (l.getD i ""))

/-- The input events `run_app` dispatches on (main.rs lines 136-168):
Tab, a typed character, Enter, Backspace, a tick, and any other key
(the catch-all arms). -/
inductive InEv where
  | tab
  | char (c : Char)
  | enter
  | backspace
  | tick
  | otherKey

/-- Embeds one iteration of the `run_app` event loop (main.rs lines
136-168) as a state transformer.  On the character arms: a digit or a
space (stored as the placeholder underscore) is pushed onto the active
buffer and the input trace, the letter t triggers `parse_matrices`, the
letter q returns from the loop (session over, state untouched), and
every other character is ignored.  When `parse_matrices` panics the
Rust process aborts; since the panic happens before any field is
written, the pre-panic state is kept here, and no claim below depends
on events after an abort. -/
def stepApp (app : App) (e : InEv) : App :=
  match e with
  | .tab => app.next
  | .char c =>
    if c = 'q' then app
    else if '0' ≤ c ∧ c ≤ '9' then
      { app with matrix_text := pushAt app.matrix_text app.curr_matrix.toNat c,
                 curr_string := app.curr_string.push c }
    else if c = ' ' then
      { app with matrix_text := pushAt app.matrix_text app.curr_matrix.toNat '_',
                 curr_string := app.curr_string.push '_' }
    else if c = 't' then (parse_matrices app).getD app
    else app
  | .enter =>
    { app with matrix_text := pushAt app.matrix_text app.curr_matrix.toNat '\n',
               curr_string := "" }
  | .backspace =>
    { app with matrix_text := popAt app.matrix_text app.curr_matrix.toNat,
               curr_string := popStr app.curr_string }
  | .tick => app
  | .otherKey => app

/-- The buffer currently receiving keystrokes,
`app.matrix_text[app.curr_matrix as usize]`. -/
def activeBuf (app : App) : String :=
  app.matrix_text.getD app.curr_matrix.toNat ""

/-- The character alphabet `run_app` can ever append to a matrix text
buffer: digits, the underscore placeholder stored for a typed space,
and the newline appended on Enter. -/
def goodChar (c : Char) : Prop := ('0' ≤ c ∧ c ≤ '9') ∨ c = '_' ∨ c = '\n'

instance (c : Char) : Decidable (goodChar c) := by
  unfold goodChar
  infer_instance

/-- Invariant of the `run_app` event loop: the buffer vector keeps its
initial length 2, the selected matrix is 0 or 1, the buffers hold only
`goodChar` characters, and the input trace `curr_string` is a suffix of
the active buffer. -/
def StateInv (app : App) : Prop :=
  app.matrix_text.length = 2 ∧
  (app.curr_matrix = 0 ∨ app.curr_matrix = 1) ∧
  (∀ s ∈ app.matrix_text, ∀ c ∈ s.data, goodChar c) ∧
  app.curr_string.data <:+ (activeBuf app).data

/- Arithmetic facts about the wraparound: `wrap64` absorbs an inner
`wrap64` on either summand, so a chain of wrapped additions of wrapped
products equals a single wrap of the exact integer sum. -/

lemma wrap64_add_right (x y : Int) : wrap64 (x + wrap64 y) = wrap64 (x + y) := by
  unfold wrap64; omega

lemma wrap64_add_left (x y : Int) : wrap64 (wrap64 x + y) = wrap64 (x + y) := by
  unfold wrap64; omega

lemma wrap64_zero : wrap64 0 = 0 := by unfold wrap64; omega

lemma foldl_wrap_eq (f : Nat → Int) (l : List Nat) (z : Int) :
    l.foldl (fun acc k => wrap64 (acc + wrap64 (f k))) (wrap64 z)
      = wrap64 (z + (l.map f).sum) := by
  induction l generalizing z with
  | nil => simp
  | cons a t ih =>
    simp only [List.foldl_cons, List.map_cons, List.sum_cons]
    rw [wrap64_add_right, wrap64_add_left, ih, add_assoc]

lemma mulCell_eq (r1 : List Int) (m2 : Matrix) (j : Nat) :
    mulCell r1 m2 j
      = wrap64 (((List.range m2.length).map
          (fun k => r1.getD k 0 * (m2.getD k []).getD j 0)).sum) := by
  have h := foldl_wrap_eq (fun k => r1.getD k 0 * (m2.getD k []).getD j 0)
    (List.range m2.length) 0
  rw [wrap64_zero] at h
  rw [mulCell, h, zero_add]

lemma getD_map_range {α : Type} (g : Nat → α) (a i : Nat) (d : α) (h : i < a) :
    ((List.range a).map g).getD i d = g i := by
  rw [List.getD_eq_getElem?_getD, List.getElem?_map, List.getElem?_range h]
  rfl

/-- C3: for matrices `a` (m×n) and `b` (n×p) with n equal to the row
count of `b`, `multiply_matrices` returns a matrix with m rows and p
columns whose cell (i, j) is the sum over k of `a[i][k] * b[k][j]` in
signed 64-bit integer arithmetic; the definition mirrors the triple
nested row-major, then-column, then-inner-product loop of the source. -/
theorem c3_sequential_multiply (a b : Matrix) (m n p : Nat)
    (hm : 0 < m) (hn : 0 < n) (hp : 0 < p)
    (ha : a.length = m) (haRow : ∀ r ∈ a, r.length = n)
    (hb : b.length = n) (hbRow : ∀ r ∈ b, r.length = p) :
    (multiply_matrices a b).length = m ∧
    (∀ row ∈ multiply_matrices a b, row.length = p) ∧
    (∀ i j, i < m → j < p →
      ((multiply_matrices a b).getD i []).getD j 0
        = wrap64 (((List.range n).map
            (fun k => (a.getD i []).getD k 0 * (b.getD k []).getD j 0)).sum)) := by
  have hcols : (b.headD []).length = p := by
    cases b with
    | nil => simp at hb; omega
    | cons r t => exact hbRow r (by simp)
  refine ⟨by simp [multiply_matrices, ha], ?_, ?_⟩
  · intro row hr
    rw [multiply_matrices] at hr
    obtain ⟨i, hi, rfl⟩ := List.mem_map.mp hr
    simp only [List.length_map, List.length_range]
    exact hcols
  · intro i j hi hj
    rw [multiply_matrices,
      getD_map_range _ a.length i _ (by omega),
      getD_map_range _ _ j _ (by omega),
      mulCell_eq, hb]

/-- Witness for C3 at the 2×2 end-to-end example of the specification,
whose product is `[[19, 22], [43, 50]]`. -/
theorem c3_sequential_multiply_w :
    ((multiply_matrices [[1, 2], [3, 4]] [[5, 6], [7, 8]]).getD 0 []).getD 0 0
      = wrap64 (((List.range 2).map
          (fun k => (([[(1 : Int), 2], [3, 4]] : Matrix).getD 0 []).getD k 0 *
            (([[(5 : Int), 6], [7, 8]] : Matrix).getD k []).getD 0 0)).sum) ∧
    (multiply_matrices [[1, 2], [3, 4]] [[5, 6], [7, 8]]).length = 2 :=
  ⟨(c3_sequential_multiply [[1, 2], [3, 4]] [[5, 6], [7, 8]] 2 2 2
      (by decide) (by decide) (by decide) (by decide) (by decide) (by decide)
      (by decide)).2.2 0 0 (by decide) (by decide),
   (c3_sequential_multiply [[1, 2], [3, 4]] [[5, 6], [7, 8]] 2 2 2
      (by decide) (by decide) (by decide) (by decide) (by decide) (by decide)
      (by decide)).1⟩

/- Preservation of `StateInv` across the event loop. -/

lemma stateInv_init : StateInv initApp := by
  refine ⟨rfl, Or.inl rfl, ?_, List.nil_suffix⟩
  intro s hs c hc
  simp [initApp] at hs
  subst hs
  simp at hc

lemma parse_matrices_fields {app app2 : App} (h : parse_matrices app = some app2) :
    app2.curr_matrix = app.curr_matrix ∧ app2.matrix_text = app.matrix_text ∧
    app2.curr_string = app.curr_string := by
  unfold parse_matrices at h
  split at h
  · cases h
    exact ⟨rfl, rfl, rfl⟩
  · exact absurd h (by simp)

lemma stateInv_of_fields {a b : App} (h1 : b.curr_matrix = a.curr_matrix)
    (h2 : b.matrix_text = a.matrix_text) (h3 : b.curr_string = a.curr_string)
    (h : StateInv a) : StateInv b := by
  unfold StateInv activeBuf at h ⊢
  rw [h1, h2, h3]
  exact h

lemma suffix_push (l1 l2 : List Char) (c : Char) (h : l1 <:+ l2) :
    (l1 ++ [c]) <:+ (l2 ++ [c]) := by
  obtain ⟨t, rfl⟩ := h
  exact ⟨t, by simp⟩

lemma suffix_dropLast (l1 l2 : List Char) (h : l1 <:+ l2) :
    l1.dropLast <:+ l2.dropLast := by
  obtain ⟨t, rfl⟩ := h
  cases h1 : l1 with
  | nil => simp [List.nil_suffix]
  | cons a l =>
    subst h1
    rw [List.dropLast_append_of_ne_nil _ (by simp)]
    exact ⟨t, rfl⟩

lemma stateInv_step (app : App) (e : InEv) (h : StateInv app) :
    StateInv (stepApp app e) := by
  obtain ⟨hlen, hcm, hchars, hsuf⟩ := h
  obtain ⟨cm, mt, cs, ans⟩ := app
  simp only [activeBuf] at hsuf
  simp only at hlen hcm hchars
  obtain ⟨s0, s1, rfl⟩ := List.length_eq_two.mp hlen
  have h0 : ∀ c ∈ s0.data, goodChar c := hchars s0 (by simp)
  have h1 : ∀ c ∈ s1.data, goodChar c := hchars s1 (by simp)
  have hpushInv : ∀ (c : Char), goodChar c → (cm = 0 ∨ cm = 1) →
      StateInv ⟨cm, pushAt [s0, s1] cm.toNat c, cs.push c, ans⟩ := by
    intro c hc hcm
    rcases hcm with rfl | rfl
    · refine ⟨by simp [pushAt], Or.inl rfl, ?_, ?_⟩
      · intro s hs ch hch
        simp [pushAt] at hs
        rcases hs with rfl | rfl
        · rw [String.push] at hch
          simp only [List.getD] at hch
          rcases List.mem_append.mp hch with hm | hm
          · exact h0 ch hm
          · rw [List.mem_singleton.mp hm]; exact hc
        · exact h1 ch hch
      · simp only [activeBuf, pushAt, Int.toNat_zero, List.getD, String.push]
        simp only [List.getElem?_cons_zero, Option.getD_some, List.set_cons_zero]
        exact suffix_push _ _ c (by simpa [activeBuf] using hsuf)
    · refine ⟨by simp [pushAt], Or.inr rfl, ?_, ?_⟩
      · intro s hs ch hch
        simp [pushAt] at hs
        rcases hs with rfl | rfl
        · exact h0 ch hch
        · rw [String.push] at hch
          simp only [List.getD] at hch
          rcases List.mem_append.mp hch with hm | hm
          · exact h1 ch hm
          · rw [List.mem_singleton.mp hm]; exact hc
      · simp only [activeBuf, pushAt, List.getD, String.push]
        simp only [Int.toNat_one, List.getElem?_cons_succ, List.getElem?_cons_zero,
          Option.getD_some, List.set_cons_succ, List.set_cons_zero]
        exact suffix_push _ _ c (by simpa [activeBuf] using hsuf)
  cases e with
  | tab =>
    rcases hcm with rfl | rfl
    · exact ⟨hlen, Or.inr rfl, hchars, List.nil_suffix⟩
    · exact ⟨hlen, Or.inl rfl, hchars, List.nil_suffix⟩
  | char c =>
    simp only [stepApp]
    split_ifs with hq hd hs ht
    · exact ⟨hlen, hcm, hchars, hsuf⟩
    · exact hpushInv c (Or.inl hd) hcm
    · exact hpushInv '_' (Or.inr (Or.inl rfl)) hcm
    · cases hp : parse_matrices ⟨cm, [s0, s1], cs, ans⟩ with
      | none => exact ⟨hlen, hcm, hchars, hsuf⟩
      | some a2 =>
        obtain ⟨f1, f2, f3⟩ := parse_matrices_fields hp
        exact stateInv_of_fields f1 f2 f3 ⟨hlen, hcm, hchars, hsuf⟩
    · exact ⟨hlen, hcm, hchars, hsuf⟩
  | enter =>
    rcases hcm with rfl | rfl
    · refine ⟨by simp [stepApp, pushAt], Or.inl rfl, ?_, List.nil_suffix⟩
      intro s hs ch hch
      simp [stepApp, pushAt] at hs
      rcases hs with rfl | rfl
      · rw [String.push] at hch
        simp only [List.getD] at hch
        rcases List.mem_append.mp hch with hm | hm
        · exact h0 ch hm
        · rw [List.mem_singleton.mp hm]; exact Or.inr (Or.inr rfl)
      · exact h1 ch hch
    · refine ⟨by simp [stepApp, pushAt], Or.inr rfl, ?_, List.nil_suffix⟩
      intro s hs ch hch
      simp [stepApp, pushAt] at hs
      rcases hs with rfl | rfl
      · exact h0 ch hch
      · rw [String.push] at hch
        simp only [List.getD] at hch
        rcases List.mem_append.mp hch with hm | hm
        · exact h1 ch hm
        · rw [List.mem_singleton.mp hm]; exact Or.inr (Or.inr rfl)
  | backspace =>
    rcases hcm with rfl | rfl
    · refine ⟨by simp [stepApp, popAt], Or.inl rfl, ?_, ?_⟩
      · intro s hs ch hch
        simp [stepApp, popAt, popStr] at hs
        rcases hs with rfl | rfl
        · exact h0 ch (List.dropLast_subset _ hch)
        · exact h1 ch hch
      · simp only [stepApp, activeBuf, popAt, popStr, Int.toNat_zero, List.getD]
        simp only [List.getElem?_cons_zero, Option.getD_some, List.set_cons_zero]
        exact suffix_dropLast _ _ (by simpa [activeBuf] using hsuf)
    · refine ⟨by simp [stepApp, popAt], Or.inr rfl, ?_, ?_⟩
      · intro s hs ch hch
        simp [stepApp, popAt, popStr] at hs
        rcases hs with rfl | rfl
        · exact h0 ch hch
        · exact h1 ch (List.dropLast_subset _ hch)
      · simp only [stepApp, activeBuf, popAt, popStr, Int.toNat_one, List.getD]
        simp only [List.getElem?_cons_succ, List.getElem?_cons_zero,
          Option.getD_some, List.set_cons_succ, List.set_cons_zero]
        exact suffix_dropLast _ _ (by simpa [activeBuf] using hsuf)
  | tick => exact ⟨hlen, hcm, hchars, hsuf⟩
  | otherKey => exact ⟨hlen, hcm, hchars, hsuf⟩

lemma stateInv_foldl (evs : List InEv) :
    StateInv (List.foldl stepApp initApp evs) := by
  have hgen : ∀ (l : List InEv) (s : App), StateInv s →
      StateInv (List.foldl stepApp s l) := by
    intro l
    induction l with
    | nil => intro s hs; exact hs
    | cons a t ih => intro s hs; exact ih _ (stateInv_step s a hs)
  exact hgen evs initApp stateInv_init

lemma backspace_spec (s : App) (h : StateInv s) :
    (activeBuf s = "" → stepApp s .backspace = s) ∧
    activeBuf (stepApp s .backspace) = popStr (activeBuf s) ∧
    (stepApp s .backspace).curr_string = popStr s.curr_string ∧
    (stepApp s .backspace).curr_matrix = s.curr_matrix ∧
    (stepApp s .backspace).answer = s.answer := by
  obtain ⟨hlen, hcm, hchars, hsuf⟩ := h
  obtain ⟨cm, mt, cs, ans⟩ := s
  simp only [activeBuf] at hsuf
  obtain ⟨s0, s1, rfl⟩ := List.length_eq_two.mp hlen
  simp only at hcm
  rcases hcm with rfl | rfl
  · refine ⟨?_, ?_, rfl, rfl, rfl⟩
    · intro hb
      simp only [activeBuf, Int.toNat_zero, List.getD_cons_zero] at hb hsuf
      subst hb
      have hcs : cs = "" := by
        have := List.suffix_nil.mp hsuf
        cases cs
        simp_all
      subst hcs
      simp [stepApp, popAt, popStr]
    · simp [stepApp, activeBuf, popAt, popStr]
  · refine ⟨?_, ?_, rfl, rfl, rfl⟩
    · intro hb
      simp only [activeBuf] at hb
      simp only [Int.toNat_one, List.getD_cons_succ, List.getD_cons_zero] at hb hsuf
      subst hb
      have hcs : cs = "" := by
        have := List.suffix_nil.mp hsuf
        cases cs
        simp_all
      subst hcs
      simp [stepApp, popAt, popStr]
    · simp [stepApp, activeBuf, popAt, popStr]

/-- C8: in every state the event loop can reach, Backspace on an empty
active buffer changes nothing at all (in particular the input trace is
then empty too, by the suffix invariant), and in general Backspace
removes exactly the final character of the active buffer and of the
input trace (`String::pop` semantics: a no-op on an empty string) while
leaving the selected matrix and the stored answer untouched; the
transition is total, so no error or panic occurs. -/
theorem c8_backspace (evs : List InEv) (s : App)
    (hs : s = List.foldl stepApp initApp evs) :
    (activeBuf s = "" → stepApp s .backspace = s) ∧
    activeBuf (stepApp s .backspace) = popStr (activeBuf s) ∧
    (stepApp s .backspace).curr_string = popStr s.curr_string ∧
    (stepApp s .backspace).curr_matrix = s.curr_matrix ∧
    (stepApp s .backspace).answer = s.answer := by
  subst hs
  exact backspace_spec _ (stateInv_foldl evs)

/-- Witness for C8: Backspace in the initial state, whose active buffer
is empty, is a complete no-op. -/
theorem c8_backspace_w : stepApp initApp .backspace = initApp :=
  (c8_backspace [] initApp rfl).1 rfl

/-- C9: a typed space appends the placeholder underscore, not a literal
space, to both the active buffer and the input trace, and the parser
splits rows into cells on that same underscore, so the substitution
policy is consistent end to end: typing the keys 1, space, 2 yields the
buffer "1_2", which parses to the 1×2 matrix [[1, 2]]. -/
theorem c9_space_underscore :
    (∀ app : App, app.matrix_text.length = 2 →
      (app.curr_matrix = 0 ∨ app.curr_matrix = 1) →
      (stepApp app (.char ' ')).curr_string = app.curr_string.push '_' ∧
      activeBuf (stepApp app (.char ' ')) = (activeBuf app).push '_') ∧
    (List.foldl stepApp initApp [.char '1', .char ' ', .char '2']).matrix_text.getD 0 ""
      = "1_2" ∧
    parseBuffer "1_2" = some [[1, 2]] := by
  refine ⟨?_, by decide, by decide⟩
  intro app hlen hcm
  obtain ⟨cm, mt, cs, ans⟩ := app
  obtain ⟨s0, s1, rfl⟩ := List.length_eq_two.mp hlen
  simp only at hcm
  rcases hcm with rfl | rfl
  · constructor
    · simp [stepApp]
    · simp [stepApp, activeBuf, pushAt]
  · constructor
    · simp [stepApp]
    · simp [stepApp, activeBuf, pushAt]

/-- Witness for C9: a space typed in the initial state appends an
underscore to the input trace. -/
theorem c9_space_underscore_w :
    (stepApp initApp (.char ' ')).curr_string = initApp.curr_string.push '_' :=
  (c9_space_underscore.1 initApp rfl (Or.inl rfl)).1

/-- C10: starting from the initial state, after any sequence of input
events both text buffers contain only decimal digits, the underscore
placeholder, and the newline row separator (so the letters q and t are
never appended), and the active-buffer selector is always 0 or 1. -/
theorem c10_reachable_alphabet (evs : List InEv) :
    (∀ buf ∈ (List.foldl stepApp initApp evs).matrix_text, ∀ c ∈ buf.data,
      ('0' ≤ c ∧ c ≤ '9') ∨ c = '_' ∨ c = '\n') ∧
    ((List.foldl stepApp initApp evs).curr_matrix = 0 ∨
      (List.foldl stepApp initApp evs).curr_matrix = 1) := by
  obtain ⟨hlen, hcm, hchars, hsuf⟩ := stateInv_foldl evs
  exact ⟨hchars, hcm⟩

/-- C1 fails on the code: already for the 1×1 matrices a = [[1]],
b = [[1]] and T = 1 worker, the coordinator drains
`thread_count / 2 = 0` reports, so the threaded product is the
all-empty-rows matrix [[]] while the sequential product is [[1]]; the
results are not bit-identical.  With one worker there is only one
possible arrival order, so this divergence is schedule-independent. -/
theorem c1_threaded_differs :
    multiply_matrices [[1]] [[1]] = [[1]] ∧
    multiply_matrices_threaded [[1]] [[1]] 1 = some [[]] ∧
    multiply_matrices_threaded [[1]] [[1]] 1 ≠ some (multiply_matrices [[1]] [[1]]) := by
  decide

/-- C2 fails on the code: for a = [[1], [2]], b = [[1]] and T = 2, both
workers produce a non-empty report, yet the coordinator drains only
`take (2 / 2) = 1` of the 2 reports before assembling, so one report is
never incorporated and the assembled result differs from the
sequential product under every arrival order (here the thread-index
order is shown). -/
theorem c2_coordinator_drops_report :
    (producedReports [[1], [2]] [[1]] 2).length = 2 ∧
    ((producedReports [[1], [2]] [[1]] 2).take (2 / 2)).length = 1 ∧
    multiply_matrices_threaded [[1], [2]] [[1]] 2 = some [[1], []] ∧
    multiply_matrices_threaded [[1], [2]] [[1]] 2
      ≠ some (multiply_matrices [[1], [2]] [[1]]) := by
  decide

/-- C4 fails on the code: `multiply_matrices` performs no dimension
check and the program defines no ComputeError type at all; for the
mismatched inputs a = [[1, 2]] (1×2) and b = [[1, 2]] (1×2, so
a_cols = 2 but b_rows = 1) it silently returns the product matrix
[[1, 2]] built from the first b_rows columns of a instead of failing. -/
theorem c4_no_dimension_check :
    multiply_matrices [[1, 2]] [[1, 2]] = [[1, 2]] := by
  decide

/-- C5 fails on the code: `parse_matrices` converts cells with
`parse::<i64>().unwrap()`, so a non-numeric cell such as the buffer "x"
panics and aborts the process (modelled as `none`); no
ParseError::InvalidCell value exists anywhere in the program. -/
theorem c5_parse_aborts_on_invalid_cell :
    parseBuffer "x" = none ∧
    parse_matrices ⟨0, ["x", "1"], "", none⟩ = none := by
  decide

/-- C6 fails on the code: the ragged buffer "1_2\n3" is accepted and
parsed to the ragged matrix [[1, 2], [3]]; no RaggedMatrix error exists
and nothing rejects rows of differing cell counts. -/
theorem c6_ragged_accepted :
    parseBuffer "1_2\n3" = some [[1, 2], [3]] := by
  decide

/-- C7 fails on the code: when Compute (the t key) hits a parse failure,
`parse_matrices` panics via `unwrap` and the process aborts (modelled
as `none`): no error value is surfaced to any caller, there is no error
channel in the program, and the interactive session is lost rather than
left in its prior state. -/
theorem c7_compute_failure_aborts :
    parse_matrices ⟨0, ["1", "x"], "", some [[7]]⟩ = none := by
  decide

end MatrixMult
